import Mathlib

/-!
Verification of the windowed measurement engine of the telescope
performance monitor (src/src/main.rs), shallowly embedded in Lean.

Modelling choices:
* `Instant` timestamps are modelled as rationals (`ℚ`); each call that in
  the source captures `Instant::now()` takes the current time explicitly.
* `f64` rate computations are modelled by exact arithmetic in `ℚ`.
* The `expect`/panic on an empty buffer and the panic of `get_u8` on an
  empty extra-data buffer are modelled with `Except MetricError`.
* `u64`/`usize` counters are modelled as `Nat` (they are only compared and
  summed; no wrapping arithmetic is exercised by the claims).
-/

/-- The fields of an `alloy` block record that the engine reads:
`header.number`, `header.gas_used`, `transactions.len()` and
`header.extra_data` (a byte buffer). -/
structure Block where
  number : Nat
  gas_used : Nat
  tx_count : Nat
  extra_data : List Nat
  deriving Repr, DecidableEq

/-- The `Datapoint` struct: one sampled block plus the local arrival timestamp
(`Instant::now()` at construction, here passed explicitly). -/
structure Datapoint where
  timestamp : ℚ
  block : Block
  deriving Repr, DecidableEq

namespace Datapoint

/-- Embeds `Datapoint::new`, with the captured `Instant::now()` made explicit. -/
def new (now : ℚ) (block : Block) : Datapoint :=
  ⟨now, block⟩

/-- Embeds `Datapoint::gas_used`. -/
def gas_used (d : Datapoint) : Nat :=
  d.block.gas_used

/-- Embeds `Datapoint::transactions`. -/
def transactions (d : Datapoint) : Nat :=
  d.block.tx_count

/-- Embeds `Datapoint::mini_blocks`: reads the first byte of the block's
extra-data with `Buf::get_u8`, which panics when the buffer is empty;
the panic is modelled by `none`. -/
def mini_blocks (d : Datapoint) : Option Nat :=
  d.block.extra_data.head?

end Datapoint

/-- Failure modes of the metric functions: the `expect("Buffer is empty")`
panic and the `get_u8` panic on an empty extra-data buffer. -/
inductive MetricError where
  | emptyBuffer
  | decodeFailure
  deriving Repr, DecidableEq

deriving instance DecidableEq for Except

/-- The `Measurement` struct: window anchor time, observation buffer
(oldest first, newest last, as in the `Vec`), and the window size. -/
structure Measurement where
  window_start : ℚ
  buffer : List Datapoint
  window_size : Nat
  deriving Repr, DecidableEq

namespace Measurement

/-- Embeds `Measurement::new`, with the captured `Instant::now()` made
explicit. -/
def new (now : ℚ) (window_size : Nat) : Measurement :=
  ⟨now, [], window_size⟩

/-- Embeds `Measurement::buffer_len`. -/
def buffer_len (m : Measurement) : Nat :=
  m.buffer.length

/-- Embeds `Measurement::record`: reject the block when the buffer's last entry
has a number `≥` the incoming one; otherwise push a new datapoint and,
when the buffer length exceeds the window size, remove the oldest entry
and move `window_start` to its timestamp. -/
def record (m : Measurement) (now : ℚ) (b : Block) : Measurement :=
  match m.buffer.getLast? with
  | some last =>
      if b.number ≤ last.block.number then m
      else
        let buf := m.buffer ++ [Datapoint.new now b]
        if m.window_size < buf.length then
          match buf with
          | [] => { m with buffer := buf }
          | d :: rest => { m with window_start := d.timestamp, buffer := rest }
        else { m with buffer := buf }
  | none =>
      let buf := m.buffer ++ [Datapoint.new now b]
      if m.window_size < buf.length then
        match buf with
        | [] => { m with buffer := buf }
        | d :: rest => { m with window_start := d.timestamp, buffer := rest }
      else { m with buffer := buf }

/-- Embeds `Measurement::transactions_per_second`. -/
def transactions_per_second (m : Measurement) : Except MetricError ℚ :=
  match m.buffer.getLast? with
  | none => .error .emptyBuffer
  | some last =>
      let time_window : ℚ := last.timestamp - m.window_start
      let n_txs : Nat := (m.buffer.map Datapoint.transactions).sum
      .ok ((n_txs : ℚ) / time_window)

/-- Embeds `Measurement::gas_per_second`. -/
def gas_per_second (m : Measurement) : Except MetricError ℚ :=
  match m.buffer.getLast? with
  | none => .error .emptyBuffer
  | some last =>
      let time_window : ℚ := last.timestamp - m.window_start
      let n_gas : Nat := (m.buffer.map Datapoint.gas_used).sum
      .ok ((n_gas : ℚ) / time_window)

/-- Embeds `Measurement::mini_block_rate`: the per-datapoint `mini_blocks`
decode may fail (modelled by `Option.none`), which aborts the whole
query with `decodeFailure`. -/
def mini_block_rate (m : Measurement) : Except MetricError ℚ :=
  match m.buffer.getLast? with
  | none => .error .emptyBuffer
  | some last =>
      match m.buffer.mapM Datapoint.mini_blocks with
      | none => .error .decodeFailure
      | some counts =>
          let time_window : ℚ := last.timestamp - m.window_start
          .ok ((counts.sum : ℚ) / time_window)

end Measurement

/-- Models the startup path of `main`: `assert!(args.window > 1)`
followed by `Measurement::new(args.window)`; a failing assertion aborts
the session (modelled by `none`). -/
def startup (window : Nat) (now : ℚ) : Option Measurement :=
  if 1 < window then some (Measurement.new now window) else none

/-- Record a trace of (arrival time, block) pairs in order. -/
def recordAll (m : Measurement) (tbs : List (ℚ × Block)) : Measurement :=
  tbs.foldl (fun acc tb => acc.record tb.1 tb.2) m

instance : Inhabited Datapoint :=
  ⟨⟨0, ⟨0, 0, 0, []⟩⟩⟩

namespace Measurement

lemma record_reject (m : Measurement) (now : ℚ) (b : Block) (last : Datapoint)
    (hlast : m.buffer.getLast? = some last)
    (hle : b.number ≤ last.block.number) :
    m.record now b = m := by
  unfold record
  rw [hlast]
  simp [hle]

lemma record_accept_eq (m : Measurement) (now : ℚ) (b : Block)
    (hacc : ∀ last, m.buffer.getLast? = some last → last.block.number < b.number) :
    m.record now b =
      if m.window_size < m.buffer.length + 1 then
        { m with window_start := ((m.buffer ++ [Datapoint.new now b]).headI).timestamp,
                 buffer := (m.buffer ++ [Datapoint.new now b]).tail }
      else { m with buffer := m.buffer ++ [Datapoint.new now b] } := by
  rcases hb : m.buffer with _ | ⟨h0, t0⟩
  · unfold record
    rw [hb]
    simp
  · have hlast : m.buffer.getLast? = some ((h0 :: t0).getLast (by simp)) := by
      rw [hb]; exact List.getLast?_eq_getLast _ _
    have hnum := hacc _ hlast
    unfold record
    rw [hlast, hb]
    simp only [if_neg (not_le.mpr hnum), List.cons_append, List.length_append,
      List.length_cons, List.length_nil]
    split <;> simp

lemma record_total (m : Measurement) (now : ℚ) (b : Block) :
    m.record now b = m ∨
    m.record now b =
      (if m.window_size < m.buffer.length + 1 then
        { m with window_start := ((m.buffer ++ [Datapoint.new now b]).headI).timestamp,
                 buffer := (m.buffer ++ [Datapoint.new now b]).tail }
      else { m with buffer := m.buffer ++ [Datapoint.new now b] }) := by
  rcases hl : m.buffer.getLast? with _ | last
  · exact Or.inr (record_accept_eq m now b (fun l hl2 => by rw [hl] at hl2; exact Option.noConfusion hl2))
  · by_cases hle : b.number ≤ last.block.number
    · exact Or.inl (record_reject m now b last hl hle)
    · refine Or.inr (record_accept_eq m now b (fun l hl2 => ?_))
      rw [hl] at hl2
      cases Option.some.inj hl2
      omega

lemma record_window_size (m : Measurement) (now : ℚ) (b : Block) :
    (m.record now b).window_size = m.window_size := by
  rcases record_total m now b with h | h <;> rw [h]
  split <;> rfl

end Measurement
/-- A sample block with `transaction_count = 10`, `gas_used = 1000` and a
one-byte extra-data buffer holding the fragment count 2. -/
def sampleBlock (n : Nat) : Block :=
  ⟨n, 1000, 10, [2]⟩

/-- The spec's worked example: capacity 3, blocks 1–4 recorded at times
0s, 1s, 2s, 3s into an engine created at time 0. -/
def exampleState : Measurement :=
  recordAll (Measurement.new 0 3)
    [(0, sampleBlock 1), (1, sampleBlock 2), (2, sampleBlock 3), (3, sampleBlock 4)]

lemma record_length_bounds (m : Measurement) (now : ℚ) (b : Block) :
    m.buffer.length ≤ (m.record now b).buffer.length ∧
    (m.record now b).buffer.length ≤ m.buffer.length + 1 := by
  rcases Measurement.record_total m now b with hr | hr <;> rw [hr]
  · omega
  · split <;> simp

/-- C2: a record call that accepts a block into a full buffer evicts
exactly the oldest observation, moves `window_start` to the evicted
observation's arrival time, and leaves the buffer length unchanged; in
general a record call appends at most one observation and evicts at most
one. -/
theorem record_full_evicts_exactly_oldest (m : Measurement) (now : ℚ) (b : Block)
    (hacc : ∀ last, m.buffer.getLast? = some last → last.block.number < b.number)
    (hfull : m.window_size < m.buffer.length + 1) :
    m.record now b =
      { window_start := ((m.buffer ++ [Datapoint.new now b]).headI).timestamp,
        buffer := (m.buffer ++ [Datapoint.new now b]).tail,
        window_size := m.window_size } ∧
    (m.record now b).buffer.length = m.buffer.length ∧
    (∀ (n : Measurement) (t : ℚ) (c : Block),
      n.buffer.length ≤ (n.record t c).buffer.length ∧
      (n.record t c).buffer.length ≤ n.buffer.length + 1) := by
  have h := Measurement.record_accept_eq m now b hacc
  rw [if_pos hfull] at h
  refine ⟨h, ?_, fun n t c => record_length_bounds n t c⟩
  rw [h]
  simp

theorem record_full_evicts_exactly_oldest_witness :
    (Measurement.mk (-1) [Datapoint.new 0 (sampleBlock 1), Datapoint.new 1 (sampleBlock 2)] 2).record
        2 (sampleBlock 3) =
      Measurement.mk 0 [Datapoint.new 1 (sampleBlock 2), Datapoint.new 2 (sampleBlock 3)] 2 ∧
    ((Measurement.mk (-1) [Datapoint.new 0 (sampleBlock 1), Datapoint.new 1 (sampleBlock 2)] 2).record
        2 (sampleBlock 3)).buffer.length = 2 :=
  ⟨(record_full_evicts_exactly_oldest
      (Measurement.mk (-1) [Datapoint.new 0 (sampleBlock 1), Datapoint.new 1 (sampleBlock 2)] 2)
      2 (sampleBlock 3) (by decide) (by decide)).1,
   (record_full_evicts_exactly_oldest
      (Measurement.mk (-1) [Datapoint.new 0 (sampleBlock 1), Datapoint.new 1 (sampleBlock 2)] 2)
      2 (sampleBlock 3) (by decide) (by decide)).2.1⟩

/-- C3: recording a block whose number is at most the last kept one
leaves the whole engine state unchanged (and signals no error). -/
theorem record_stale_leaves_state_unchanged (m : Measurement) (now : ℚ) (b : Block)
    (last : Datapoint) (hlast : m.buffer.getLast? = some last)
    (hle : b.number ≤ last.block.number) :
    m.record now b = m :=
  Measurement.record_reject m now b last hlast hle

theorem record_stale_leaves_state_unchanged_witness :
    (Measurement.mk 0 [Datapoint.new 0 (sampleBlock 5)] 3).record 1 (sampleBlock 5) =
      Measurement.mk 0 [Datapoint.new 0 (sampleBlock 5)] 3 :=
  record_stale_leaves_state_unchanged (Measurement.mk 0 [Datapoint.new 0 (sampleBlock 5)] 3)
    1 (sampleBlock 5) (Datapoint.new 0 (sampleBlock 5)) (by decide) (by decide)

/-- C8: the startup path aborts on a window capacity of 0 or 1 and
otherwise builds an engine with an empty buffer whose `window_start` is
the creation time. -/
theorem startup_requires_capacity_above_one (w : Nat) (now : ℚ) :
    (w ≤ 1 → startup w now = none) ∧
    (1 < w → startup w now = some (Measurement.mk now [] w)) := by
  constructor <;> intro h
  · unfold startup
    rw [if_neg (by omega)]
  · unfold startup
    rw [if_pos h]
    rfl

theorem startup_requires_capacity_above_one_witness :
    (startup 1 0 = none) ∧ (startup 16 0 = some (Measurement.mk 0 [] 16)) :=
  ⟨(startup_requires_capacity_above_one 1 0).1 (by decide),
   (startup_requires_capacity_above_one 16 0).2 (by decide)⟩

/-- C6: the spec's worked example: after recording blocks 1–4 at times
0–3 into a capacity-3 engine created at time 0, the buffer holds blocks
2, 3, 4, `window_start` is block 1's arrival time 0, the elapsed window
is 3 seconds, and the metrics are 10 tx/s, 1000 gas/s and 2
mini-blocks/s. -/
theorem example_trace_matches_spec :
    exampleState.buffer =
      [Datapoint.new 1 (sampleBlock 2), Datapoint.new 2 (sampleBlock 3),
       Datapoint.new 3 (sampleBlock 4)] ∧
    exampleState.window_start = 0 ∧
    exampleState.buffer.getLast? = some (Datapoint.new 3 (sampleBlock 4)) ∧
    (Datapoint.new 3 (sampleBlock 4)).timestamp - exampleState.window_start = 3 ∧
    exampleState.transactions_per_second = .ok 10 ∧
    exampleState.gas_per_second = .ok 1000 ∧
    exampleState.mini_block_rate = .ok 2 := by
  have hstate : exampleState =
      Measurement.mk 0
        [Datapoint.new 1 (sampleBlock 2), Datapoint.new 2 (sampleBlock 3),
         Datapoint.new 3 (sampleBlock 4)] 3 := by decide
  refine ⟨by decide, by decide, by decide, ?_, ?_, ?_, ?_⟩
  · rw [show exampleState.window_start = (0 : ℚ) from by decide]
    norm_num [Datapoint.new]
  · rw [hstate]
    show Except.ok (((30 : Nat) : ℚ) / ((3 : ℚ) - 0)) = Except.ok 10
    norm_num
  · rw [hstate]
    show Except.ok (((3000 : Nat) : ℚ) / ((3 : ℚ) - 0)) = Except.ok 1000
    norm_num
  · rw [hstate]
    show Except.ok (((6 : Nat) : ℚ) / ((3 : ℚ) - 0)) = Except.ok 2
    norm_num


/-- Spec-side `elapsed_window()`: arrival time of the newest buffered
observation minus `window_start_time`. -/
def specElapsedWindow (m : Measurement) (last : Datapoint) : ℚ :=
  last.timestamp - m.window_start

/-- Spec-side sum of `transaction_count` over the buffered observations. -/
def specSumTransactions (m : Measurement) : Nat :=
  (m.buffer.map fun d => d.block.tx_count).sum

/-- Spec-side sum of `gas_used` over the buffered observations. -/
def specSumGas (m : Measurement) : Nat :=
  (m.buffer.map fun d => d.block.gas_used).sum

/-- Spec-side sum of `sub_block_fragment_count` (the first extra-data
byte) over the buffered observations. -/
def specSumFragments (m : Measurement) : Nat :=
  (m.buffer.map fun d => d.block.extra_data.headI).sum

lemma mapM_mini_blocks {l : List Datapoint}
    (h : ∀ d ∈ l, d.block.extra_data ≠ []) :
    l.mapM Datapoint.mini_blocks = some (l.map fun d => d.block.extra_data.headI) := by
  induction l with
  | nil => rfl
  | cons d t ih =>
      have hd : Datapoint.mini_blocks d = some d.block.extra_data.headI := by
        have hne := h d (List.mem_cons_self d t)
        cases hx : d.block.extra_data with
        | nil => exact absurd hx hne
        | cons x xs => simp [Datapoint.mini_blocks, hx]
      rw [List.mapM_cons, hd, ih fun d hm => h d (List.mem_cons_of_mem _ hm)]
      rfl

lemma mapM_mini_blocks_none {l : List Datapoint} {d : Datapoint}
    (hd : d ∈ l) (hnone : Datapoint.mini_blocks d = none) :
    l.mapM Datapoint.mini_blocks = none := by
  induction l with
  | nil => cases hd
  | cons a t ih =>
      rw [List.mapM_cons]
      rcases List.mem_cons.mp hd with rfl | hmem
      · rw [hnone]
        rfl
      · cases ha : Datapoint.mini_blocks a
        · rfl
        · rw [ih hmem]
          rfl

/-- C1: with a non-empty buffer, each metric is the sum of its field over
the buffered observations divided by the elapsed window, and all three
share the same denominator `specElapsedWindow`. -/
theorem metrics_are_sums_over_common_window (m : Measurement) (last : Datapoint)
    (hlast : m.buffer.getLast? = some last) :
    m.transactions_per_second = .ok ((specSumTransactions m : ℚ) / specElapsedWindow m last) ∧
    m.gas_per_second = .ok ((specSumGas m : ℚ) / specElapsedWindow m last) ∧
    ((∀ d ∈ m.buffer, d.block.extra_data ≠ []) →
      m.mini_block_rate = .ok ((specSumFragments m : ℚ) / specElapsedWindow m last)) := by
  refine ⟨?_, ?_, fun hdec => ?_⟩
  · unfold Measurement.transactions_per_second
    rw [hlast]
    rfl
  · unfold Measurement.gas_per_second
    rw [hlast]
    rfl
  · unfold Measurement.mini_block_rate
    rw [hlast, mapM_mini_blocks hdec]
    rfl

theorem metrics_are_sums_over_common_window_witness :
    exampleState.transactions_per_second =
      .ok ((specSumTransactions exampleState : ℚ) /
        specElapsedWindow exampleState (Datapoint.new 3 (sampleBlock 4))) ∧
    exampleState.gas_per_second =
      .ok ((specSumGas exampleState : ℚ) /
        specElapsedWindow exampleState (Datapoint.new 3 (sampleBlock 4))) ∧
    exampleState.mini_block_rate =
      .ok ((specSumFragments exampleState : ℚ) /
        specElapsedWindow exampleState (Datapoint.new 3 (sampleBlock 4))) :=
  ⟨(metrics_are_sums_over_common_window exampleState (Datapoint.new 3 (sampleBlock 4))
      (by decide)).1,
   (metrics_are_sums_over_common_window exampleState (Datapoint.new 3 (sampleBlock 4))
      (by decide)).2.1,
   (metrics_are_sums_over_common_window exampleState (Datapoint.new 3 (sampleBlock 4))
      (by decide)).2.2 (by decide)⟩

/-- C7 counterexample: recording an otherwise valid block whose
extra-data buffer is empty does mutate the engine state — the
observation is appended — even though its fragment decode fails. -/
theorem record_empty_extra_data_still_mutates :
    Datapoint.mini_blocks (Datapoint.new 0 ⟨1, 1000, 10, []⟩) = none ∧
    ((Measurement.new 0 3).record 0 ⟨1, 1000, 10, []⟩).buffer.length = 1 := by
  decide

/-- C7 amended: the fragment count is the first extra-data byte, and an
empty extra-data buffer makes the decode fail; but the failure surfaces
only when the mini-block rate is queried — `record` itself appends the
observation regardless, so the state is mutated before the fatal
failure. -/
theorem empty_extra_data_fails_at_query_not_record (m : Measurement) (now : ℚ) (b : Block)
    (hempty : b.extra_data = [])
    (hacc : ∀ last, m.buffer.getLast? = some last → last.block.number < b.number)
    (hW : 0 < m.window_size) :
    Datapoint.new now b ∈ (m.record now b).buffer ∧
    (m.record now b).mini_block_rate = .error .decodeFailure := by
  have h := Measurement.record_accept_eq m now b hacc
  have hmem : Datapoint.new now b ∈ (m.record now b).buffer := by
    rw [h]
    split
    · rename_i hlen
      rcases hb : m.buffer with _ | ⟨h0, t0⟩
      · rw [hb] at hlen
        simp at hlen
        omega
      · simp [hb]
    · simp
  refine ⟨hmem, ?_⟩
  have hne : (m.record now b).buffer ≠ [] := List.ne_nil_of_mem hmem
  unfold Measurement.mini_block_rate
  rcases hl : (m.record now b).buffer.getLast? with _ | last
  · rw [List.getLast?_eq_none_iff] at hl
    exact absurd hl hne
  · dsimp only
    rw [mapM_mini_blocks_none hmem (by simp [Datapoint.mini_blocks, Datapoint.new, hempty])]

theorem empty_extra_data_fails_at_query_not_record_witness :
    Datapoint.new 0 ⟨1, 1000, 10, []⟩ ∈
      ((Measurement.new 0 3).record 0 ⟨1, 1000, 10, []⟩).buffer ∧
    ((Measurement.new 0 3).record 0 ⟨1, 1000, 10, []⟩).mini_block_rate =
      .error .decodeFailure :=
  empty_extra_data_fails_at_query_not_record (Measurement.new 0 3) 0 ⟨1, 1000, 10, []⟩
    rfl (by decide) (by decide)

/-- C9 counterexample: after one successful record (of a block with an
empty extra-data buffer) the buffer is non-empty, yet the mini-block
rate query does not return a value — it fails with a decode error. -/
theorem nonempty_buffer_metric_can_fail :
    ((Measurement.new 0 3).record 0 ⟨1, 1000, 10, []⟩).buffer ≠ [] ∧
    ((Measurement.new 0 3).record 0 ⟨1, 1000, 10, []⟩).mini_block_rate =
      .error .decodeFailure := by
  decide

/-- C9 amended: on an empty buffer every metric hits the asserted
empty-buffer branch; on a non-empty buffer that branch is unreachable
and the transaction and gas metrics return values, while the mini-block
rate returns a value provided every buffered observation's extra-data
decodes (is non-empty). -/
theorem metrics_empty_buffer_asserted (m : Measurement) :
    (m.buffer = [] →
      m.transactions_per_second = .error .emptyBuffer ∧
      m.gas_per_second = .error .emptyBuffer ∧
      m.mini_block_rate = .error .emptyBuffer) ∧
    (m.buffer ≠ [] →
      (∃ q, m.transactions_per_second = .ok q) ∧
      (∃ q, m.gas_per_second = .ok q) ∧
      m.mini_block_rate ≠ .error .emptyBuffer) ∧
    (m.buffer ≠ [] → (∀ d ∈ m.buffer, d.block.extra_data ≠ []) →
      ∃ q, m.mini_block_rate = .ok q) := by
  refine ⟨fun hnil => ?_, fun hne => ?_, fun hne hdec => ?_⟩
  · have hl : m.buffer.getLast? = none := by rw [hnil]; rfl
    refine ⟨?_, ?_, ?_⟩ <;>
      first
        | (unfold Measurement.transactions_per_second; rw [hl])
        | (unfold Measurement.gas_per_second; rw [hl])
        | (unfold Measurement.mini_block_rate; rw [hl])
  · have hl := List.getLast?_eq_getLast m.buffer hne
    refine ⟨?_, ?_, ?_⟩
    · unfold Measurement.transactions_per_second
      rw [hl]
      exact ⟨_, rfl⟩
    · unfold Measurement.gas_per_second
      rw [hl]
      exact ⟨_, rfl⟩
    · unfold Measurement.mini_block_rate
      rw [hl]
      rcases hm : m.buffer.mapM Datapoint.mini_blocks with _ | counts <;> simp
  · have hl := List.getLast?_eq_getLast m.buffer hne
    unfold Measurement.mini_block_rate
    rw [hl, mapM_mini_blocks hdec]
    exact ⟨_, rfl⟩

theorem metrics_empty_buffer_asserted_witness :
    (Measurement.new 0 3).transactions_per_second = .error .emptyBuffer ∧
    (Measurement.new 0 3).gas_per_second = .error .emptyBuffer ∧
    (Measurement.new 0 3).mini_block_rate = .error .emptyBuffer :=
  (metrics_empty_buffer_asserted (Measurement.new 0 3)).1 rfl

namespace Measurement

lemma record_accept_length (m : Measurement) (now : ℚ) (b : Block)
    (hacc : ∀ last, m.buffer.getLast? = some last → last.block.number < b.number)
    (hle : m.buffer.length ≤ m.window_size) :
    (m.record now b).buffer.length = min (m.buffer.length + 1) m.window_size := by
  rw [record_accept_eq m now b hacc]
  split <;> rename_i hlen <;> simp <;> omega

lemma record_length_le (m : Measurement) (now : ℚ) (b : Block)
    (h : m.buffer.length ≤ m.window_size) :
    (m.record now b).buffer.length ≤ m.window_size := by
  rcases record_total m now b with hr | hr <;> rw [hr]
  · exact h
  · split <;> rename_i hlen <;> simp <;> omega

lemma record_accept_getLast (m : Measurement) (now : ℚ) (b : Block)
    (hacc : ∀ last, m.buffer.getLast? = some last → last.block.number < b.number) :
    (m.record now b).buffer.getLast? = some (Datapoint.new now b) ∨
    (m.record now b).buffer = [] := by
  rw [record_accept_eq m now b hacc]
  split
  · rcases hb : m.buffer with _ | ⟨h0, t0⟩
    · right
      simp
    · left
      simp only [List.cons_append, List.tail_cons]
      exact List.getLast?_concat _
  · left
    exact List.getLast?_concat _

end Measurement

lemma recordAll_length_of_increasing (tbs : List (ℚ × Block)) (m : Measurement)
    (hinc : List.Chain' (fun p q => p.2.number < q.2.number) tbs)
    (hfirst : ∀ last, m.buffer.getLast? = some last →
      ∀ p, tbs.head? = some p → last.block.number < p.2.number)
    (hle : m.buffer.length ≤ m.window_size) :
    (recordAll m tbs).buffer.length = min (m.buffer.length + tbs.length) m.window_size := by
  induction tbs generalizing m with
  | nil =>
      simp only [recordAll, List.foldl_nil, List.length_nil, Nat.add_zero]
      omega
  | cons p rest ih =>
      have hacc : ∀ last, m.buffer.getLast? = some last → last.block.number < p.2.number :=
        fun last hl => hfirst last hl p rfl
      have hstep := Measurement.record_accept_length m p.1 p.2 hacc hle
      have hws := Measurement.record_window_size m p.1 p.2
      have hrest : (recordAll (m.record p.1 p.2) rest).buffer.length =
          min ((m.record p.1 p.2).buffer.length + rest.length)
            (m.record p.1 p.2).window_size := by
        refine ih (m.record p.1 p.2) (List.Chain'.tail hinc) ?_ ?_
        · intro last hl q hq
          rcases Measurement.record_accept_getLast m p.1 p.2 hacc with hlast | hnil
          · rw [hl] at hlast
            cases Option.some.inj hlast
            exact (List.chain'_cons'.mp hinc).1 q (Option.mem_def.mpr hq)
          · rw [hnil] at hl
            exact Option.noConfusion hl
        · rw [hstep, hws]
          omega
      show (recordAll (m.record p.1 p.2) rest).buffer.length = _
      rw [hrest, hstep, hws]
      simp only [List.length_cons]
      omega

/-- C4: recording N blocks with strictly increasing numbers into a fresh
engine leaves the buffer with min(N, capacity) observations, and no
trace of record calls ever pushes the buffer length past the
capacity. -/
theorem buffer_length_is_min_of_records (t0 : ℚ) (W : Nat) (tbs : List (ℚ × Block))
    (hinc : List.Chain' (fun p q => p.2.number < q.2.number) tbs) :
    (recordAll (Measurement.new t0 W) tbs).buffer.length = min tbs.length W ∧
    ∀ tbs' : List (ℚ × Block), (recordAll (Measurement.new t0 W) tbs').buffer.length ≤ W := by
  constructor
  · have := recordAll_length_of_increasing tbs (Measurement.new t0 W) hinc
      (fun last hl => by exact Option.noConfusion hl) (by simp [Measurement.new])
    simpa [Measurement.new] using this
  · intro tbs'
    have hkey : ∀ (l : List (ℚ × Block)) (m : Measurement), m.buffer.length ≤ m.window_size →
        (recordAll m l).buffer.length ≤ m.window_size := by
      intro l
      induction l with
      | nil => exact fun m h => h
      | cons p rest ih =>
          intro m h
          have h2 := Measurement.record_length_le m p.1 p.2 h
          rw [← Measurement.record_window_size m p.1 p.2] at h2
          have h3 := ih (m.record p.1 p.2) h2
          rw [Measurement.record_window_size] at h3
          exact h3
    exact hkey tbs' (Measurement.new t0 W) (by simp [Measurement.new])

theorem buffer_length_is_min_of_records_witness :
    (recordAll (Measurement.new 0 3)
      [(0, sampleBlock 1), (1, sampleBlock 2), (2, sampleBlock 3), (3, sampleBlock 4)]).buffer.length =
      min 4 3 :=
  (buffer_length_is_min_of_records 0 3
    [(0, sampleBlock 1), (1, sampleBlock 2), (2, sampleBlock 3), (3, sampleBlock 4)]
    (by simp [List.chain'_cons, sampleBlock])).1

lemma record_numbers_chain (m : Measurement) (now : ℚ) (b : Block)
    (h : List.Chain' (· < ·) (m.buffer.map fun d => d.block.number)) :
    List.Chain' (· < ·) ((m.record now b).buffer.map fun d => d.block.number) := by
  rcases hl : m.buffer.getLast? with _ | last
  · have hb : m.buffer = [] := List.getLast?_eq_none_iff.mp hl
    rw [Measurement.record_accept_eq m now b
      (fun l hl2 => by rw [hl] at hl2; exact Option.noConfusion hl2)]
    split <;> simp [hb]
  · by_cases hle : b.number ≤ last.block.number
    · rw [Measurement.record_reject m now b last hl hle]
      exact h
    · rw [Measurement.record_accept_eq m now b
        (fun l hl2 => by rw [hl] at hl2; cases Option.some.inj hl2; omega)]
      have happ : List.Chain' (· < ·)
          ((m.buffer ++ [Datapoint.new now b]).map fun d => d.block.number) := by
        rw [List.map_append]
        refine List.Chain'.append h (List.chain'_singleton _) ?_
        intro x hx y hy
        rw [List.getLast?_map] at hx
        rw [hl] at hx
        cases Option.mem_def.mp hx
        cases Option.mem_def.mp hy
        dsimp only [Datapoint.new]
        omega
      split
      · show List.Chain' _ (((m.buffer ++ [Datapoint.new now b]).tail).map _)
        rw [List.map_tail]
        exact List.Chain'.tail happ
      · exact happ

/-- C5: in every state reachable by any sequence of record calls, the
block numbers in the buffer are strictly increasing from oldest to
newest, and each record call preserves this invariant. -/
theorem buffer_numbers_strictly_increasing :
    (∀ (m : Measurement) (now : ℚ) (b : Block),
      List.Pairwise (· < ·) (m.buffer.map fun d => d.block.number) →
      List.Pairwise (· < ·) ((m.record now b).buffer.map fun d => d.block.number)) ∧
    (∀ (t0 : ℚ) (W : Nat) (tbs : List (ℚ × Block)),
      List.Pairwise (· < ·)
        ((recordAll (Measurement.new t0 W) tbs).buffer.map fun d => d.block.number)) := by
  constructor
  · intro m now b h
    rw [← List.chain'_iff_pairwise] at h ⊢
    exact record_numbers_chain m now b h
  · intro t0 W tbs
    rw [← List.chain'_iff_pairwise]
    have hall : ∀ (l : List (ℚ × Block)) (m : Measurement),
        List.Chain' (· < ·) (m.buffer.map fun d => d.block.number) →
        List.Chain' (· < ·) ((recordAll m l).buffer.map fun d => d.block.number) := by
      intro l
      induction l with
      | nil => exact fun m h => h
      | cons p rest ih => exact fun m h => ih _ (record_numbers_chain m p.1 p.2 h)
    exact hall tbs (Measurement.new t0 W) (by simp [Measurement.new])

theorem buffer_numbers_strictly_increasing_witness :
    List.Pairwise (· < ·)
      (((Measurement.mk 0 [Datapoint.new 0 (sampleBlock 1)] 3).record 1 (sampleBlock 2)).buffer.map
        fun d => d.block.number) :=
  buffer_numbers_strictly_increasing.1 (Measurement.mk 0 [Datapoint.new 0 (sampleBlock 1)] 3)
    1 (sampleBlock 2) (by simp)

/-- The times of a trace are nondecreasing and start no earlier than the
engine's creation time, as `Instant::now()` guarantees. -/
def TimesMono (t0 : ℚ) (tbs : List (ℚ × Block)) : Prop :=
  List.Chain' (· ≤ ·) (t0 :: tbs.map Prod.fst)

lemma record_times_chain (m : Measurement) (now : ℚ) (b : Block)
    (h : List.Chain' (· ≤ ·) (m.window_start :: m.buffer.map Datapoint.timestamp))
    (hnow : ∀ x ∈ m.window_start :: m.buffer.map Datapoint.timestamp, x ≤ now) :
    List.Chain' (· ≤ ·)
      ((m.record now b).window_start :: (m.record now b).buffer.map Datapoint.timestamp) ∧
    m.window_start ≤ (m.record now b).window_start ∧
    (∀ x ∈ (m.record now b).window_start :: (m.record now b).buffer.map Datapoint.timestamp,
      x ≤ now) := by
  rcases Measurement.record_total m now b with hr | hr <;> rw [hr]
  · exact ⟨h, le_refl _, hnow⟩
  · split <;> rename_i hlen
    · rcases hb : m.buffer with _ | ⟨h0, t0⟩
      · rw [hb] at h hnow
        dsimp only
        refine ⟨by simp, ?_, ?_⟩
        · simpa using hnow m.window_start (by simp)
        · intro x hx
          simp only [List.nil_append, List.headI, List.tail_cons, List.map_nil,
            List.not_mem_nil, or_false, List.mem_cons] at hx
          subst hx
          exact le_refl _
      · rw [hb] at h hnow
        dsimp only
        simp only [List.cons_append, List.headI, List.tail_cons, List.map_append,
          List.map_cons, List.map_nil] at h hnow ⊢
        have htail : List.Chain' (· ≤ ·) (h0.timestamp :: t0.map Datapoint.timestamp) :=
          List.Chain'.tail h
        have hchain : List.Chain' (· ≤ ·)
            ((h0.timestamp :: t0.map Datapoint.timestamp) ++ [now]) :=
          List.Chain'.append htail (List.chain'_singleton now)
            (fun x hx y hy => by
              cases Option.mem_def.mp hy
              exact hnow x (List.mem_cons_of_mem _ (by simpa using List.mem_of_mem_getLast? hx)))
        refine ⟨?_, ?_, ?_⟩
        · simpa using hchain
        · exact (List.chain'_cons.mp h).1
        · intro x hx
          rcases List.mem_cons.mp hx with rfl | hx2
          · exact hnow _ (List.mem_cons_of_mem _ (List.mem_cons_self _ _))
          · rcases List.mem_append.mp hx2 with h1 | h2
            · exact hnow x (List.mem_cons_of_mem _ (List.mem_cons_of_mem _ h1))
            · simp only [List.mem_singleton] at h2
              subst h2
              exact le_refl _
    · dsimp only
      refine ⟨?_, le_refl _, ?_⟩
      · have hchain : List.Chain' (· ≤ ·)
            ((m.window_start :: m.buffer.map Datapoint.timestamp) ++ [now]) :=
          List.Chain'.append h (List.chain'_singleton now)
            (fun x hx y hy => by
              cases Option.mem_def.mp hy
              exact hnow x (List.mem_of_mem_getLast? hx))
        simpa using hchain
      · intro x hx
        rcases List.mem_cons.mp hx with rfl | hx2
        · exact hnow _ (List.mem_cons_self _ _)
        · rw [List.map_append] at hx2
          rcases List.mem_append.mp hx2 with h1 | h2
          · exact hnow x (List.mem_cons_of_mem _ h1)
          · simp only [List.map_cons, List.map_nil, List.mem_singleton] at h2
            subst h2
            exact le_refl _

lemma recordAll_times_chain (tbs : List (ℚ × Block)) (m : Measurement) (u : ℚ)
    (hc : List.Chain' (· ≤ ·) (m.window_start :: m.buffer.map Datapoint.timestamp))
    (hu : ∀ x ∈ m.window_start :: m.buffer.map Datapoint.timestamp, x ≤ u)
    (hmono : List.Chain' (· ≤ ·) (u :: tbs.map Prod.fst)) :
    List.Chain' (· ≤ ·)
      ((recordAll m tbs).window_start :: (recordAll m tbs).buffer.map Datapoint.timestamp) ∧
    m.window_start ≤ (recordAll m tbs).window_start ∧
    ∀ v, u ≤ v → (∀ p ∈ tbs, p.1 ≤ v) →
      ∀ x ∈ (recordAll m tbs).window_start :: (recordAll m tbs).buffer.map Datapoint.timestamp,
        x ≤ v := by
  induction tbs generalizing m u with
  | nil => exact ⟨hc, le_refl _, fun v huv _ x hx => le_trans (hu x hx) huv⟩
  | cons p rest ih =>
      have hm := List.chain'_cons.mp (by simpa using hmono)
      have hnow : ∀ x ∈ m.window_start :: m.buffer.map Datapoint.timestamp, x ≤ p.1 :=
        fun x hx => le_trans (hu x hx) hm.1
      obtain ⟨hc1, hws1, hub1⟩ := record_times_chain m p.1 p.2 hc hnow
      obtain ⟨hc2, hws2, hub2⟩ := ih (m.record p.1 p.2) p.1 hc1 hub1 hm.2
      refine ⟨hc2, le_trans hws1 hws2, ?_⟩
      intro v huv hv x hx
      exact hub2 v (hv p (List.mem_cons_self _ _)) (fun q hq => hv q (List.mem_cons_of_mem _ hq))
        x hx

/-- C10: in every state reachable by a trace with monotone arrival
times, `window_start` is at most every buffered arrival time, a further
record call never decreases `window_start`, and the elapsed window is
non-negative whenever the buffer is non-empty. -/
theorem window_start_bounds_buffer_times (t0 : ℚ) (W : Nat) (tbs : List (ℚ × Block))
    (hmono : TimesMono t0 tbs) :
    (∀ d ∈ (recordAll (Measurement.new t0 W) tbs).buffer,
      (recordAll (Measurement.new t0 W) tbs).window_start ≤ d.timestamp) ∧
    (∀ (t : ℚ) (b : Block), t0 ≤ t → (∀ p ∈ tbs, p.1 ≤ t) →
      (recordAll (Measurement.new t0 W) tbs).window_start ≤
        ((recordAll (Measurement.new t0 W) tbs).record t b).window_start) ∧
    (∀ last, (recordAll (Measurement.new t0 W) tbs).buffer.getLast? = some last →
      0 ≤ last.timestamp - (recordAll (Measurement.new t0 W) tbs).window_start) := by
  have hbase : List.Chain' (· ≤ ·)
      ((Measurement.new t0 W).window_start ::
        (Measurement.new t0 W).buffer.map Datapoint.timestamp) := by
    simp [Measurement.new]
  have hub : ∀ x ∈ (Measurement.new t0 W).window_start ::
      (Measurement.new t0 W).buffer.map Datapoint.timestamp, x ≤ t0 := by
    intro x hx
    simp [Measurement.new] at hx
    simp [hx]
  obtain ⟨hc, _, hub2⟩ := recordAll_times_chain tbs (Measurement.new t0 W) t0 hbase hub hmono
  have hple : ∀ d ∈ (recordAll (Measurement.new t0 W) tbs).buffer,
      (recordAll (Measurement.new t0 W) tbs).window_start ≤ d.timestamp := by
    intro d hd
    have hp := List.chain'_iff_pairwise.mp hc
    exact (List.pairwise_cons.mp hp).1 d.timestamp (List.mem_map_of_mem _ hd)
  refine ⟨hple, ?_, ?_⟩
  · intro t b ht hall
    exact (record_times_chain _ t b hc (hub2 t ht hall)).2.1
  · intro last hlast
    have := hple last (List.mem_of_mem_getLast? hlast)
    linarith

theorem window_start_bounds_buffer_times_witness :
    0 ≤ (Datapoint.new 1 (sampleBlock 2)).timestamp -
      (recordAll (Measurement.new 0 3) [(0, sampleBlock 1), (1, sampleBlock 2)]).window_start :=
  (window_start_bounds_buffer_times 0 3 [(0, sampleBlock 1), (1, sampleBlock 2)]
    (by norm_num [TimesMono, List.chain'_cons])).2.2 (Datapoint.new 1 (sampleBlock 2)) (by decide)
